import Mathlib

/-!
Verification development for the SparseMatrix repository
(src/SparseMatrix.h, src/main.cpp).

The container is a template class holding a doubly linked chain of nodes,
each node carrying one stored cell (struct element: riga, colonna, dato),
kept in strictly ascending lexicographic (row, column) order.  We embed the
chain as a Lean list of cells ordered from the head node, following the
next pointers; the machinery below mirrors, line by line, the member
functions add (lines 242-303), operator() (313-326), the copy constructor
(189-202), the cross-type conversion constructor (214-231), the iterators
(360-569) and the free function evaluate (580-598).

Machine integers: riga, colonna, righe, colonne are C++ int and take part
only in comparisons, never in arithmetic that could overflow, so they are
embedded as Int.  The member size is a C++ unsigned int counting stored
nodes; it only ever grows by one per successful node allocation, and each
node occupies dozens of bytes, so a wraparound at 2^32 is unreachable
before allocation failure; it is embedded as Nat.  The counter of the free
function evaluate is a C++ int that counts up to righe times colonne and
can therefore overflow on large dimensions with no stored node at all; it
is embedded with an explicit two's complement wrap (iwrap, evaluateC),
beside the idealized unbounded counter (evaluate) the two agree with while
the count stays in int range.

Allocation failure (std::bad_alloc from new at line 246) is modelled by an
explicit allocation budget: each call to add consumes one unit, and a call
with an exhausted budget signals the failure through Except.
-/

set_option linter.unusedVariables false

namespace SpMx

/-- One stored cell of the matrix; mirrors struct element with its row
(riga), column (colonna) and datum (dato) fields. -/
structure Elem (T : Type) where
  riga : Int
  colonna : Int
  dato : T
deriving DecidableEq, Repr

/-- Position of a stored cell, as a (row, column) pair. -/
def posOf {T : Type} (e : Elem T) : Int × Int :=
  (e.riga, e.colonna)

/-- Strict lexicographic order on positions; this is the comparison the add
member function performs at lines 257 and 289. -/
def pLt (a b : Int × Int) : Prop :=
  a.1 < b.1 ∨ (a.1 = b.1 ∧ a.2 < b.2)

instance (a b : Int × Int) : Decidable (pLt a b) := by
  unfold pLt; infer_instance

/-- The walk of add over the chain (the while loop at lines 256-302 plus
the empty-head case at line 247).  At each node exactly one of the three
tests fires: strictly smaller position means splice the fresh node in
before the current one (head or middle insertion, lines 258-279), equal
position means overwrite the stored datum in place (lines 281-288), and
strictly greater position means append at the tail when there is no next
node or advance otherwise (lines 289-301); appending at the tail coincides
with recursing into the empty tail.  The boolean records whether a new
node was kept, i.e. whether ++size ran. -/
def addChain {T : Type} (r c : Int) (v : T) : List (Elem T) → List (Elem T) × Bool
  | [] => ([⟨r, c, v⟩], true)
  | n :: rest =>
    if r < n.riga ∨ (r = n.riga ∧ c < n.colonna) then
      (⟨r, c, v⟩ :: n :: rest, true)
    else if r = n.riga ∧ c = n.colonna then
      (⟨n.riga, n.colonna, v⟩ :: rest, false)
    else
      (n :: (addChain r c v rest).1, (addChain r c v rest).2)

/-- The walk of operator() over the chain (lines 316-325): return the datum
of the first node matching the requested position, and the default datum
when the walk falls off the end of the chain. -/
def lookupChain {T : Type} (d : T) (r c : Int) : List (Elem T) → T
  | [] => d
  | n :: rest =>
    if n.riga = r ∧ n.colonna = c then n.dato
    else lookupChain d r c rest

/-- The container state: dimensions righe and colonne, the node chain read
off from head following the next pointers, the stored-node count size, and
the default datum D (lines 76-80). -/
structure SparseMatrix (T : Type) where
  righe : Int
  colonne : Int
  chain : List (Elem T)
  size : Nat
  D : T
deriving DecidableEq, Repr

/-- The state built by the main constructor (lines 115-121) once its
assertions have passed: empty chain, size 0. -/
def mkSparseMatrix {T : Type} (r c : Int) (d : T) : SparseMatrix T :=
  { righe := r, colonne := c, chain := [], size := 0, D := d }

/-- The main constructor including its assertions (lines 119-120):
assert(r > 0) and assert(c > 0).  none models the abort. -/
def mkSparseMatrixChecked {T : Type} (r c : Int) (d : T) : Option (SparseMatrix T) :=
  if 0 < r ∧ 0 < c then some (mkSparseMatrix r c d) else none

/-- The add member function (lines 242-303) after its assertions have
passed: run the chain walk and bump size exactly when a new node was
spliced in. -/
def SparseMatrix.add {T : Type} (m : SparseMatrix T) (r c : Int) (v : T) : SparseMatrix T :=
  { m with
    chain := (addChain r c v m.chain).1,
    size := if (addChain r c v m.chain).2 then m.size + 1 else m.size }

/-- The add member function including its assertions (lines 243-245):
assert(r <= righe && r > 0), assert(c <= colonne && c > 0),
assert(value != D).  none models the abort. -/
def SparseMatrix.addChecked {T : Type} [DecidableEq T] (m : SparseMatrix T) (r c : Int) (v : T) :
    Option (SparseMatrix T) :=
  if (r ≤ m.righe ∧ 0 < r) ∧ (c ≤ m.colonne ∧ 0 < c) ∧ v ≠ m.D then
    some (m.add r c v)
  else none

/-- The operator() member function (lines 313-326) after its assertions
have passed. -/
def SparseMatrix.lookup {T : Type} (m : SparseMatrix T) (r c : Int) : T :=
  lookupChain m.D r c m.chain

/-- The operator() member function including its assertions (lines
314-315): assert(r <= righe && r > 0), assert(c <= colonne && c > 0).
none models the abort. -/
def SparseMatrix.lookupChecked {T : Type} (m : SparseMatrix T) (r c : Int) : Option T :=
  if (r ≤ m.righe ∧ 0 < r) ∧ (c ≤ m.colonne ∧ 0 < c) then some (m.lookup r c) else none

/-- The set_default member function (lines 179-181). -/
def SparseMatrix.setDefault {T : Type} (m : SparseMatrix T) (val : T) : SparseMatrix T :=
  { m with D := val }

/-- The positions currently materialized as nodes. -/
def SparseMatrix.storedPositions {T : Type} (m : SparseMatrix T) : List (Int × Int) :=
  m.chain.map posOf

/-- A sequence of add calls, applied left to right. -/
def applyAdds {T : Type} (m : SparseMatrix T) (ops : List (Int × Int × T)) : SparseMatrix T :=
  ops.foldl (fun a o => a.add o.1 o.2.1 o.2.2) m

/-- The copy constructor (lines 189-202) on the success path, the path on
which every assertion of add passes: start from an empty chain with the
dimensions and default of the source, then walk the source chain from its
head re-inserting every stored cell through add.  The assertions that add
runs on each re-inserted cell (lines 243-245) are carried by
copyCtorChecked below; an assertion failure aborts the process and is not
caught by the handler at line 197. -/
def copyCtor {T : Type} (other : SparseMatrix T) : SparseMatrix T :=
  other.chain.foldl (fun acc e => acc.add e.riga e.colonna e.dato)
    { righe := other.righe, colonne := other.colonne, chain := [], size := 0, D := other.D }

/-- The cross-type conversion constructor (lines 214-231) on the success
path, the path on which the check statement at line 218 would not fault
and every assertion of add passes, with the explicit conversion from Q to
T abstracted as f: build a full copy tmp of the source, set the default to
the converted source default, then iterate tmp from begin() to end()
re-inserting every cell with a converted datum.  The run-time effect of
the check statement at line 218 is modelled by convCtorChecked, and the
full constructor with that statement and every assertion of the add calls
is modelled by convCtorFull below. -/
def convCtor {Q T : Type} (f : Q → T) (other : SparseMatrix Q) : SparseMatrix T :=
  (copyCtor other).chain.foldl (fun acc e => acc.add e.riga e.colonna (f e.dato))
    { righe := other.righe, colonne := other.colonne, chain := [], size := 0, D := f other.D }

/-!  Iterator model.  An iterator holds a node pointer n; we embed the
pointer as the list of cells from the pointed node to the tail of the
chain, the null pointer being the empty list.  begin() hands out the whole
chain, end() the null cursor, operator++ drops the head, and operator*
reads the head.  The default constructed iterator (line 370) is the null
cursor. -/

/-- Iterator dereference, operator* at lines 383-385 and 493-495: reading
n->e.  Dereferencing the null cursor has no stored cell to return; none
models that invalid access. -/
def iterDeref {T : Type} : List (Elem T) → Option (Elem T)
  | [] => none
  | e :: _ => some e

/-- Collect the cells an iterator yields between begin() and end():
repeatedly dereference and advance until the cursor is null. -/
def iterToList {T : Type} : List (Elem T) → List (Elem T)
  | [] => []
  | e :: rest => e :: iterToList rest

/-- The cross-type conversion constructor including the run-time effect of
its check statement, static_cast of (*Ib).dato at line 218: Ib has just
been default constructed, so its node pointer is null, and the statement
dereferences it before Ib is assigned tmp.begin() at line 220.  none
models the invalid access. -/
def convCtorChecked {Q T : Type} (f : Q → T) (other : SparseMatrix Q) : Option (SparseMatrix T) :=
  match iterDeref ([] : List (Elem Q)) with
  | none => none
  | some _ =>
    some ((copyCtor other).chain.foldl (fun acc e => acc.add e.riga e.colonna (f e.dato))
      { righe := other.righe, colonne := other.colonne, chain := [], size := 0, D := f other.D })

/-- The free function evaluate (lines 580-598) with an idealized unbounded
counter: a dense row-major scan, rows 1..righe outer and columns 1..colonne
inner, bumping a counter whenever the predicate holds of the looked-up
cell value.  The counter in the source is a C++ int (line 582); its 32-bit
bound is carried by evaluateC below, and this idealization agrees with
evaluateC exactly while the match count stays within int range. -/
def evaluate {T : Type} (M : SparseMatrix T) (p : T → Bool) : Int :=
  (List.range M.righe.toNat).foldl
    (fun (counter : Int) (i : Nat) =>
      (List.range M.colonne.toNat).foldl
        (fun (counter2 : Int) (j : Nat) =>
          if p (M.lookup ((i : Int) + 1) ((j : Int) + 1)) then counter2 + 1 else counter2)
        counter)
    0

/-- The row-major list of all logical positions of the matrix, rows outer,
columns inner. -/
def densePositions {T : Type} (M : SparseMatrix T) : List (Int × Int) :=
  (List.range M.righe.toNat).flatMap
    (fun (i : Nat) => (List.range M.colonne.toNat).map
      (fun (j : Nat) => (((i : Int) + 1, (j : Int) + 1) : Int × Int)))

/-- Reduction of an integer into the value range of a 32-bit C++ int,
modelling the wrap of the counter of evaluate in two's complement. -/
def iwrap (x : Int) : Int :=
  (x + 2147483648) % 4294967296 - 2147483648

/-- The free function evaluate (lines 580-598) with the int counter of
line 582 modelled as a 32-bit machine integer: every increment of the
counter wraps in two's complement once the match count passes the largest
int value 2147483647. -/
def evaluateC {T : Type} (M : SparseMatrix T) (p : T → Bool) : Int :=
  (List.range M.righe.toNat).foldl
    (fun (counter : Int) (i : Nat) =>
      (List.range M.colonne.toNat).foldl
        (fun (counter2 : Int) (j : Nat) =>
          if p (M.lookup ((i : Int) + 1) ((j : Int) + 1)) then iwrap (counter2 + 1)
          else counter2)
        counter)
    0

/-!  Allocation-aware model.  new node at line 246 runs before any mutation
of the container; a budget counts how many node allocations will still
succeed, and Except signals std::bad_alloc. -/

/-- add with allocation: with an exhausted budget the new at line 246
throws and, as the comment there notes, the container state has not been
touched, so the error carries the unchanged container. -/
def addAlloc {T : Type} (m : SparseMatrix T) (r c : Int) (v : T) :
    Nat → Except (SparseMatrix T) (SparseMatrix T × Nat)
  | 0 => .error m
  | b + 1 => .ok (m.add r c v, b)

/-- The while loop of the copy constructor (lines 192-195) with the
allocation budget threaded through; an error carries the partially built
container at the moment the failing add threw. -/
def copyLoop {T : Type} : List (Elem T) → SparseMatrix T → Nat →
    Except (SparseMatrix T) (SparseMatrix T × Nat)
  | [], m, b => .ok (m, b)
  | e :: rest, m, b =>
    match addAlloc m e.riga e.colonna e.dato b with
    | .error mErr => .error mErr
    | .ok (m2, b2) => copyLoop rest m2 b2

/-- clear (lines 99-103): release every node of the chain and reset head
and size. -/
def SparseMatrix.clear {T : Type} (m : SparseMatrix T) : SparseMatrix T :=
  { m with chain := [], size := 0 }

/-- The copy constructor (lines 189-202) with the allocation budget: on
failure the catch handler at lines 197-200 runs clear(), releasing every
partially created node, and re-signals; the error carries the container
state at the moment the failure propagates out. -/
def copyCtorAlloc {T : Type} (budget : Nat) (other : SparseMatrix T) :
    Except (SparseMatrix T) (SparseMatrix T × Nat) :=
  match copyLoop other.chain
      { righe := other.righe, colonne := other.colonne, chain := [], size := 0, D := other.D }
      budget with
  | .ok (m, b) => .ok (m, b)
  | .error mPart => .error mPart.clear

/-- The for loop of the conversion constructor (lines 223-225) with the
allocation budget threaded through. -/
def convLoop {Q T : Type} (f : Q → T) : List (Elem Q) → SparseMatrix T → Nat →
    Except (SparseMatrix T) (SparseMatrix T × Nat)
  | [], m, b => .ok (m, b)
  | e :: rest, m, b =>
    match addAlloc m e.riga e.colonna (f e.dato) b with
    | .error mErr => .error mErr
    | .ok (m2, b2) => convLoop f rest m2 b2

/-- The conversion constructor (lines 214-231) with the allocation budget.
The error carries the chain of nodes of the container under construction
that are still alive when the failure propagates out: when the copy of the
source into tmp (line 216) throws, no node of the new container exists
yet, and when an add in the for loop throws, the catch handler at lines
227-230 runs clear() before re-signaling. -/
def convCtorAlloc {Q T : Type} (f : Q → T) (budget : Nat) (other : SparseMatrix Q) :
    Except (List (Elem T)) (SparseMatrix T) :=
  match copyCtorAlloc budget other with
  | .error _ => .error ([] : List (Elem T))
  | .ok (tmp, b) =>
    match convLoop f tmp.chain
        { righe := other.righe, colonne := other.colonne, chain := [], size := 0, D := f other.D }
        b with
    | .ok (m, _) => .ok m
    | .error mPart => .error mPart.clear.chain

/-- The while loop of the copy constructor (lines 192-195) with the
assertions of every add call (lines 243-245) carried through: an assertion
failure aborts the process, which the catch handler at line 197 never
sees, so none propagates out directly. -/
def copyLoopChecked {T : Type} [DecidableEq T] :
    List (Elem T) → SparseMatrix T → Option (SparseMatrix T)
  | [], m => some m
  | e :: rest, m =>
    match m.addChecked e.riga e.colonna e.dato with
    | none => none
    | some m2 => copyLoopChecked rest m2

/-- The copy constructor (lines 189-202) with the assertions of its add
calls carried through: the new container starts from the dimensions and
the default of the source, and every stored cell of the source passes
through the asserting add.  In particular add asserts value != D at line
245 against the default D copied from the source, so a source holding a
stored value equal to its current default value aborts the copy. -/
def copyCtorChecked {T : Type} [DecidableEq T] (other : SparseMatrix T) :
    Option (SparseMatrix T) :=
  copyLoopChecked other.chain
    { righe := other.righe, colonne := other.colonne, chain := [], size := 0, D := other.D }

/-- The for loop of the conversion constructor (lines 223-225) with the
assertions of every add call carried through; the values inserted are the
converted data, checked against the converted default. -/
def convLoopChecked {Q T : Type} [DecidableEq T] (f : Q → T) :
    List (Elem Q) → SparseMatrix T → Option (SparseMatrix T)
  | [], m => some m
  | e :: rest, m =>
    match m.addChecked e.riga e.colonna (f e.dato) with
    | none => none
    | some m2 => convLoopChecked f rest m2

/-- The cross-type conversion constructor (lines 214-231) in full
fidelity: first the copy of the source into tmp at line 216, running the
asserting add on every source cell; then the check statement at line 218,
which dereferences the default constructed null iterator Ib before Ib is
assigned tmp.begin(); then the conversion loop through the asserting add.
none models both the abort of an assertion and the invalid null access. -/
def convCtorFull {Q T : Type} [DecidableEq Q] [DecidableEq T] (f : Q → T)
    (other : SparseMatrix Q) : Option (SparseMatrix T) :=
  match copyCtorChecked other with
  | none => none
  | some tmp =>
    match iterDeref ([] : List (Elem Q)) with
    | none => none
    | some _ =>
      convLoopChecked f tmp.chain
        { righe := other.righe, colonne := other.colonne, chain := [], size := 0,
          D := f other.D }

/-- The scenario container of main.cpp lines 42-55: a 3 by 2 int matrix
with default 999 and the eight add calls made on it. -/
def scenarioM : SparseMatrix Int :=
  applyAdds (mkSparseMatrix 3 2 999)
    [(2, 2, 4), (2, 2, 14), (1, 2, 2), (2, 2, 5), (1, 1, 3), (3, 2, 6), (3, 1, 5), (2, 1, 3)]

/-- The chain invariant: positions strictly ascend along the chain. -/
def SortedChain {T : Type} (l : List (Elem T)) : Prop :=
  l.Pairwise (fun a b => pLt (posOf a) (posOf b))

instance {T : Type} : DecidableRel (fun (a b : Elem T) => pLt (posOf a) (posOf b)) :=
  fun a b => inferInstanceAs (Decidable (pLt (posOf a) (posOf b)))

instance {T : Type} (l : List (Elem T)) : Decidable (SortedChain l) := by
  unfold SortedChain; infer_instance

/-- The element produced by the conversion of a source cell. -/
def convElem {Q T : Type} (f : Q → T) (e : Elem Q) : Elem T :=
  ⟨e.riga, e.colonna, f e.dato⟩

theorem pLt_trans {a b c : Int × Int} (h1 : pLt a b) (h2 : pLt b c) : pLt a c := by
  unfold pLt at *; omega

theorem pLt_ne {a b : Int × Int} (h : pLt a b) : a ≠ b := by
  unfold pLt at h
  intro he
  rw [he] at h
  omega

theorem pLt_of_branches {r c rr cc : Int} (h1 : ¬(r < rr ∨ (r = rr ∧ c < cc)))
    (h2 : ¬(r = rr ∧ c = cc)) : pLt (rr, cc) (r, c) := by
  unfold pLt; simp only []; omega

theorem addChain_length {T : Type} (r c : Int) (v : T) (l : List (Elem T)) :
    (addChain r c v l).1.length =
      if (addChain r c v l).2 then l.length + 1 else l.length := by
  induction l with
  | nil => simp [addChain]
  | cons n rest ih =>
    simp only [addChain]
    by_cases h1 : r < n.riga ∨ (r = n.riga ∧ c < n.colonna)
    · simp [h1]
    · by_cases h2 : r = n.riga ∧ c = n.colonna
      · simp [h1, h2]
      · simp only [if_neg h1, if_neg h2]
        cases hfl : (addChain r c v rest).2 <;> simp_all

theorem lookupChain_addChain_self {T : Type} (d : T) (r c : Int) (v : T) (l : List (Elem T)) :
    lookupChain d r c (addChain r c v l).1 = v := by
  induction l with
  | nil => simp [addChain, lookupChain]
  | cons n rest ih =>
    simp only [addChain]
    split_ifs with h1 h2
    · simp [lookupChain]
    · obtain ⟨hr, hc⟩ := h2
      subst hr; subst hc
      simp [lookupChain]
    · simp only [lookupChain]
      rw [if_neg, ih]
      intro hm
      exact h2 ⟨hm.1.symm, hm.2.symm⟩

theorem lookupChain_addChain_frame {T : Type} (d : T) (r c : Int) (v : T) (r₂ c₂ : Int)
    (l : List (Elem T)) (h : (r₂, c₂) ≠ (r, c)) :
    lookupChain d r₂ c₂ (addChain r c v l).1 = lookupChain d r₂ c₂ l := by
  have hne : ¬(r = r₂ ∧ c = c₂) := by
    intro hm
    exact h (by rw [hm.1, hm.2])
  induction l with
  | nil =>
    simp only [addChain, lookupChain]
    rw [if_neg]
    intro hm
    exact hne ⟨hm.1, hm.2⟩
  | cons n rest ih =>
    simp only [addChain]
    split_ifs with h1 h2
    · simp only [lookupChain]
      rw [if_neg]
      intro hm
      exact hne ⟨hm.1, hm.2⟩
    · obtain ⟨hr, hc⟩ := h2
      simp only [lookupChain]
      rw [if_neg, if_neg]
      · intro hm
        exact hne ⟨hr.symm ▸ hm.1, hc.symm ▸ hm.2⟩
      · intro hm
        exact hne ⟨hr.symm ▸ hm.1, hc.symm ▸ hm.2⟩
    · simp only [lookupChain]
      by_cases hm : n.riga = r₂ ∧ n.colonna = c₂
      · rw [if_pos hm, if_pos hm]
      · rw [if_neg hm, if_neg hm, ih]

theorem addChain_flag_true_of_not_mem {T : Type} (r c : Int) (v : T) (l : List (Elem T))
    (h : (r, c) ∉ l.map posOf) : (addChain r c v l).2 = true := by
  induction l with
  | nil => simp [addChain]
  | cons n rest ih =>
    simp only [List.map_cons, List.mem_cons] at h
    push_neg at h
    simp only [addChain]
    split_ifs with h1 h2
    · rfl
    · exact absurd (by simp [posOf, h2.1, h2.2]) h.1
    · exact ih h.2

theorem addChain_flag_false_of_mem {T : Type} (r c : Int) (v : T) (l : List (Elem T))
    (hs : SortedChain l) (h : (r, c) ∈ l.map posOf) : (addChain r c v l).2 = false := by
  induction l with
  | nil => simp at h
  | cons n rest ih =>
    simp only [List.map_cons, List.mem_cons] at h
    simp only [SortedChain, List.pairwise_cons] at hs
    simp only [addChain]
    by_cases h1 : r < n.riga ∨ (r = n.riga ∧ c < n.colonna)
    · exfalso
      have hlt2 : pLt (r, c) (posOf n) := h1
      rcases h with h | h
      · exact pLt_ne hlt2 h
      · obtain ⟨e, he, hpe⟩ := List.mem_map.mp h
        have hlt : pLt (posOf n) (posOf e) := hs.1 e he
        rw [hpe] at hlt
        exact pLt_ne (pLt_trans hlt2 hlt) rfl
    · by_cases h2 : r = n.riga ∧ c = n.colonna
      · simp [h1, h2]
      · simp only [if_neg h1, if_neg h2]
        rcases h with h | h
        · exfalso
          have hpn : (r, c) = (n.riga, n.colonna) := h
          exact h2 ⟨congrArg Prod.fst hpn, congrArg Prod.snd hpn⟩
        · exact ih hs.2 h

theorem addChain_pos_mem {T : Type} (r c : Int) (v : T) (l : List (Elem T)) :
    (r, c) ∈ (addChain r c v l).1.map posOf := by
  induction l with
  | nil => simp [addChain, posOf]
  | cons n rest ih =>
    simp only [addChain]
    split_ifs with h1 h2
    · simp [posOf]
    · simp only [List.map_cons, List.mem_cons]
      left
      simp [posOf, h2.1, h2.2]
    · simp only [List.map_cons, List.mem_cons]
      right
      exact ih

theorem addChain_pos_subset {T : Type} (r c : Int) (v : T) (l : List (Elem T)) :
    ∀ x ∈ (addChain r c v l).1.map posOf, x = (r, c) ∨ x ∈ l.map posOf := by
  induction l with
  | nil => simp [addChain, posOf]
  | cons n rest ih =>
    intro x hx
    simp only [addChain] at hx
    split_ifs at hx with h1 h2
    · simp only [List.map_cons, List.mem_cons] at hx
      rcases hx with hx | hx
      · left; simp [posOf] at hx; simp [hx]
      · right; simpa using hx
    · simp only [List.map_cons, List.mem_cons] at hx
      rcases hx with hx | hx
      · left
        simp only [posOf] at hx
        simp [hx, h2.1, h2.2]
      · right; simp [hx]
    · simp only [List.map_cons, List.mem_cons] at hx
      rcases hx with hx | hx
      · right; simp [hx]
      · rcases ih x hx with h | h
        · left; exact h
        · right; simp [h]

theorem addChain_sorted {T : Type} (r c : Int) (v : T) (l : List (Elem T))
    (hs : SortedChain l) : SortedChain (addChain r c v l).1 := by
  induction l with
  | nil => simp [addChain, SortedChain]
  | cons n rest ih =>
    simp only [SortedChain, List.pairwise_cons] at hs
    simp only [addChain]
    split_ifs with h1 h2
    · have hlt : pLt (r, c) (posOf n) := by
        unfold pLt; simp only [posOf]; omega
      refine List.Pairwise.cons ?_ (List.Pairwise.cons hs.1 hs.2)
      intro e he
      simp only [List.mem_cons] at he
      rcases he with he | he
      · rw [he]; exact hlt
      · exact pLt_trans hlt (hs.1 e he)
    · refine List.Pairwise.cons ?_ hs.2
      intro e he
      have : posOf (⟨n.riga, n.colonna, v⟩ : Elem T) = posOf n := rfl
      rw [this]
      exact hs.1 e he
    · refine List.Pairwise.cons ?_ (ih hs.2)
      intro e he
      obtain ⟨x, hx, hpe⟩ := List.mem_map.mp
        (List.mem_map_of_mem posOf he)
      rcases addChain_pos_subset r c v rest (posOf e)
        (List.mem_map_of_mem posOf he) with h | h
      · rw [h]
        have := pLt_of_branches h1 h2
        simpa [posOf] using this
      · obtain ⟨e2, he2, hpe2⟩ := List.mem_map.mp h
        rw [← hpe2]
        exact hs.1 e2 he2

theorem lookupChain_not_mem {T : Type} (d : T) (r c : Int) (l : List (Elem T))
    (h : (r, c) ∉ l.map posOf) : lookupChain d r c l = d := by
  induction l with
  | nil => rfl
  | cons n rest ih =>
    simp only [List.map_cons, List.mem_cons] at h
    push_neg at h
    simp only [lookupChain]
    rw [if_neg, ih h.2]
    intro hm
    exact h.1 (by simp [posOf, hm.1, hm.2])

theorem addChain_append {T : Type} (r c : Int) (v : T) (l : List (Elem T))
    (h : ∀ e ∈ l, pLt (posOf e) (r, c)) :
    addChain r c v l = (l ++ [⟨r, c, v⟩], true) := by
  induction l with
  | nil => simp [addChain]
  | cons n rest ih =>
    have hn : pLt (posOf n) (r, c) := h n (by simp)
    simp only [addChain]
    rw [if_neg, if_neg]
    · rw [ih (fun e he => h e (by simp [he]))]
      rfl
    · intro hm
      exact pLt_ne hn (by simp only [posOf]; rw [hm.1, hm.2])
    · intro hm
      have : pLt (r, c) (posOf n) := by
        unfold pLt; simp only [posOf]; omega
      exact pLt_ne (pLt_trans hn this) rfl

theorem add_righe {T : Type} (m : SparseMatrix T) (r c : Int) (v : T) :
    (m.add r c v).righe = m.righe := rfl

theorem add_colonne {T : Type} (m : SparseMatrix T) (r c : Int) (v : T) :
    (m.add r c v).colonne = m.colonne := rfl

theorem add_D {T : Type} (m : SparseMatrix T) (r c : Int) (v : T) :
    (m.add r c v).D = m.D := rfl

theorem iterToList_eq {T : Type} (l : List (Elem T)) : iterToList l = l := by
  induction l with
  | nil => rfl
  | cons e rest ih => simp [iterToList, ih]

theorem foldlAdd_sorted {T : Type} :
    ∀ (l : List (Elem T)) (m : SparseMatrix T), SortedChain (m.chain ++ l) →
      l.foldl (fun acc e => acc.add e.riga e.colonna e.dato) m =
        { m with chain := m.chain ++ l, size := m.size + l.length } := by
  intro l
  induction l with
  | nil =>
    intro m hs
    simp
  | cons e rest ih =>
    intro m hs
    have hs0 := hs
    unfold SortedChain at hs
    rw [List.pairwise_append] at hs
    have hsmall : ∀ x ∈ m.chain, pLt (posOf x) (posOf e) :=
      fun x hx => hs.2.2 x hx e (by simp)
    have haddc : addChain e.riga e.colonna e.dato m.chain = (m.chain ++ [e], true) := by
      have h0 := addChain_append e.riga e.colonna e.dato m.chain hsmall
      simpa using h0
    have hstep : m.add e.riga e.colonna e.dato =
        { m with chain := m.chain ++ [e], size := m.size + 1 } := by
      simp only [SparseMatrix.add, haddc]
      simp
    rw [List.foldl_cons]
    show rest.foldl (fun acc e => acc.add e.riga e.colonna e.dato)
        (m.add e.riga e.colonna e.dato) = _
    rw [hstep]
    rw [ih { m with chain := m.chain ++ [e], size := m.size + 1 }
      (by
        unfold SortedChain
        simp only [List.append_assoc, List.singleton_append]
        exact hs0)]
    congr 1
    · rw [List.append_assoc]
      rfl
    · simp only [List.length_cons]
      omega

theorem copyCtor_eq {T : Type} (other : SparseMatrix T) (hs : SortedChain other.chain) :
    copyCtor other =
      { righe := other.righe, colonne := other.colonne, chain := other.chain,
        size := other.chain.length, D := other.D } := by
  unfold copyCtor
  rw [foldlAdd_sorted other.chain _ (by simpa [SortedChain] using hs)]
  simp

theorem foldlAddConv_eq_map {Q T : Type} (f : Q → T) :
    ∀ (l : List (Elem Q)) (m : SparseMatrix T),
      l.foldl (fun acc e => acc.add e.riga e.colonna (f e.dato)) m =
        (l.map (convElem f)).foldl (fun acc e => acc.add e.riga e.colonna e.dato) m := by
  intro l
  induction l with
  | nil => intro m; rfl
  | cons e rest ih =>
    intro m
    simp only [List.map_cons, List.foldl_cons]
    exact ih _

theorem sortedChain_map_conv {Q T : Type} (f : Q → T) (l : List (Elem Q))
    (hs : SortedChain l) : SortedChain (l.map (convElem f)) := by
  unfold SortedChain at *
  rw [List.pairwise_map]
  exact hs

theorem convCtor_eq {Q T : Type} (f : Q → T) (other : SparseMatrix Q)
    (hs : SortedChain other.chain) :
    convCtor f other =
      { righe := other.righe, colonne := other.colonne,
        chain := other.chain.map (convElem f),
        size := other.chain.length, D := f other.D } := by
  unfold convCtor
  rw [copyCtor_eq other hs]
  rw [foldlAddConv_eq_map]
  rw [foldlAdd_sorted (other.chain.map (convElem f)) _
    (by simpa [SortedChain] using sortedChain_map_conv f other.chain hs)]
  simp

theorem add_preserves_inv {T : Type} (m : SparseMatrix T) (r c : Int) (v : T)
    (hs : SortedChain m.chain) (hsync : m.size = m.chain.length) :
    SortedChain (m.add r c v).chain ∧ (m.add r c v).size = (m.add r c v).chain.length := by
  constructor
  · exact addChain_sorted r c v m.chain hs
  · show (if (addChain r c v m.chain).2 then m.size + 1 else m.size) = _
    rw [show (m.add r c v).chain = (addChain r c v m.chain).1 from rfl,
      addChain_length r c v m.chain]
    cases hfl : (addChain r c v m.chain).2 <;> simp [hfl, hsync]

theorem applyAdds_inv {T : Type} (ops : List (Int × Int × T)) :
    ∀ (m : SparseMatrix T), SortedChain m.chain → m.size = m.chain.length →
      SortedChain (applyAdds m ops).chain ∧
        (applyAdds m ops).size = (applyAdds m ops).chain.length := by
  induction ops with
  | nil => intro m hs hsync; exact ⟨hs, hsync⟩
  | cons o rest ih =>
    intro m hs hsync
    have hstep := add_preserves_inv m o.1 o.2.1 o.2.2 hs hsync
    show SortedChain (applyAdds (m.add o.1 o.2.1 o.2.2) rest).chain ∧ _
    exact ih (m.add o.1 o.2.1 o.2.2) hstep.1 hstep.2

theorem foldl_count_aux {α : Type} (q : α → Bool) :
    ∀ (l : List α) (init : Int),
      l.foldl (fun acc a => if q a then acc + 1 else acc) init = init + l.countP q := by
  intro l
  induction l with
  | nil => intro init; simp
  | cons a rest ih =>
    intro init
    rw [List.foldl_cons, ih, List.countP_cons]
    cases hq : q a
    · simp [hq]
    · simp only [hq, if_pos]
      push_cast
      ring

theorem evaluate_eq_countP {T : Type} (M : SparseMatrix T) (p : T → Bool) :
    evaluate M p =
      ((densePositions M).countP (fun rc => p (M.lookup rc.1 rc.2)) : Nat) := by
  unfold evaluate densePositions
  have houter : ∀ (rows : List Nat) (init : Int),
      rows.foldl
        (fun (counter : Int) (i : Nat) =>
          (List.range M.colonne.toNat).foldl
            (fun (counter2 : Int) (j : Nat) =>
              if p (M.lookup ((i : Int) + 1) ((j : Int) + 1)) then counter2 + 1 else counter2)
            counter)
        init =
      init + ((rows.flatMap
        (fun (i : Nat) => (List.range M.colonne.toNat).map
          (fun (j : Nat) => (((i : Int) + 1, (j : Int) + 1) : Int × Int)))).countP
            (fun rc => p (M.lookup rc.1 rc.2)) : Nat) := by
    intro rows
    induction rows with
    | nil => intro init; simp
    | cons i rest ih =>
      intro init
      rw [List.foldl_cons, ih, List.flatMap_cons, List.countP_append]
      rw [foldl_count_aux (fun (j : Nat) => p (M.lookup ((i : Int) + 1) ((j : Int) + 1)))]
      rw [List.countP_map]
      simp only [Function.comp_def]
      push_cast
      ring
  rw [houter]
  simp

theorem length_flatMap_const {α β : Type} (f : α → List β) (k : Nat)
    (hf : ∀ a, (f a).length = k) : ∀ l : List α, (l.flatMap f).length = l.length * k := by
  intro l
  induction l with
  | nil => simp
  | cons a rest ih =>
    simp only [List.flatMap_cons, List.length_append, List.length_cons, hf, ih]
    ring

theorem densePositions_length {T : Type} (M : SparseMatrix T) :
    (densePositions M).length = M.righe.toNat * M.colonne.toNat := by
  unfold densePositions
  rw [length_flatMap_const _ M.colonne.toNat (fun i => by simp) _]
  simp

theorem addAlloc_exhausted {T : Type} (m : SparseMatrix T) (r c : Int) (v : T) :
    addAlloc m r c v 0 = .error m := rfl

theorem copyLoop_ok {T : Type} :
    ∀ (l : List (Elem T)) (m : SparseMatrix T) (b : Nat), l.length ≤ b →
      copyLoop l m b =
        .ok (l.foldl (fun acc e => acc.add e.riga e.colonna e.dato) m, b - l.length) := by
  intro l
  induction l with
  | nil => intro m b h; simp [copyLoop]
  | cons e rest ih =>
    intro m b h
    cases b with
    | zero => simp at h
    | succ b2 =>
      simp only [copyLoop, addAlloc]
      rw [ih (m.add e.riga e.colonna e.dato) b2 (by simpa using h)]
      simp [Nat.succ_sub_succ]

theorem copyLoop_error {T : Type} :
    ∀ (l : List (Elem T)) (m : SparseMatrix T) (b : Nat), b < l.length →
      ∃ mPart, copyLoop l m b = .error mPart := by
  intro l
  induction l with
  | nil => intro m b h; simp at h
  | cons e rest ih =>
    intro m b h
    cases b with
    | zero => exact ⟨m, rfl⟩
    | succ b2 =>
      simp only [copyLoop, addAlloc]
      exact ih (m.add e.riga e.colonna e.dato) b2 (by simpa using h)

theorem copyCtorAlloc_ok {T : Type} (budget : Nat) (other : SparseMatrix T)
    (h : other.chain.length ≤ budget) :
    copyCtorAlloc budget other = .ok (copyCtor other, budget - other.chain.length) := by
  unfold copyCtorAlloc
  rw [copyLoop_ok other.chain _ budget h]
  rfl

theorem copyCtorAlloc_error_clean {T : Type} (budget : Nat) (other mErr : SparseMatrix T)
    (h : copyCtorAlloc budget other = .error mErr) : mErr.chain = [] ∧ mErr.size = 0 := by
  unfold copyCtorAlloc at h
  revert h
  cases copyLoop other.chain
      { righe := other.righe, colonne := other.colonne, chain := [], size := 0, D := other.D }
      budget with
  | ok p => intro h; simp at h
  | error mPart =>
    intro h
    injection h with h3
    rw [← h3]
    exact ⟨rfl, rfl⟩

theorem copyCtorAlloc_error_exists {T : Type} (budget : Nat) (other : SparseMatrix T)
    (h : budget < other.chain.length) :
    ∃ mErr, copyCtorAlloc budget other = .error mErr := by
  obtain ⟨mPart, hmp⟩ := copyLoop_error other.chain
    { righe := other.righe, colonne := other.colonne, chain := [], size := 0, D := other.D }
    budget h
  refine ⟨mPart.clear, ?_⟩
  unfold copyCtorAlloc
  rw [hmp]

theorem convLoop_ok {Q T : Type} (f : Q → T) :
    ∀ (l : List (Elem Q)) (m : SparseMatrix T) (b : Nat), l.length ≤ b →
      convLoop f l m b =
        .ok (l.foldl (fun acc e => acc.add e.riga e.colonna (f e.dato)) m, b - l.length) := by
  intro l
  induction l with
  | nil => intro m b h; simp [convLoop]
  | cons e rest ih =>
    intro m b h
    cases b with
    | zero => simp at h
    | succ b2 =>
      simp only [convLoop, addAlloc]
      rw [ih (m.add e.riga e.colonna (f e.dato)) b2 (by simpa using h)]
      simp [Nat.succ_sub_succ]

theorem convLoop_error {Q T : Type} (f : Q → T) :
    ∀ (l : List (Elem Q)) (m : SparseMatrix T) (b : Nat), b < l.length →
      ∃ mPart, convLoop f l m b = .error mPart := by
  intro l
  induction l with
  | nil => intro m b h; simp at h
  | cons e rest ih =>
    intro m b h
    cases b with
    | zero => exact ⟨m, rfl⟩
    | succ b2 =>
      simp only [convLoop, addAlloc]
      exact ih (m.add e.riga e.colonna (f e.dato)) b2 (by simpa using h)

theorem convCtorAlloc_error_clean {Q T : Type} (f : Q → T) (budget : Nat)
    (otherQ : SparseMatrix Q) (lErr : List (Elem T))
    (h : convCtorAlloc f budget otherQ = .error lErr) : lErr = [] := by
  unfold convCtorAlloc at h
  cases hcc : copyCtorAlloc budget otherQ with
  | error m2 =>
    rw [hcc] at h
    injection h with h3
    exact h3.symm
  | ok p =>
    obtain ⟨tmp, b⟩ := p
    rw [hcc] at h
    dsimp only at h
    cases hcl : convLoop f tmp.chain
        { righe := otherQ.righe, colonne := otherQ.colonne, chain := [], size := 0,
          D := f otherQ.D }
        b with
    | ok p2 =>
      rw [hcl] at h
      simp at h
    | error mPart =>
      rw [hcl] at h
      injection h with h3
      exact h3.symm

theorem convCtorAlloc_ok {Q T : Type} (f : Q → T) (budget : Nat) (otherQ : SparseMatrix Q)
    (hs : SortedChain otherQ.chain) (h : 2 * otherQ.chain.length ≤ budget) :
    convCtorAlloc f budget otherQ = .ok (convCtor f otherQ) := by
  unfold convCtorAlloc
  rw [copyCtorAlloc_ok budget otherQ (by omega)]
  have hlen : (copyCtor otherQ).chain.length = otherQ.chain.length := by
    rw [copyCtor_eq otherQ hs]
  dsimp only
  rw [convLoop_ok f (copyCtor otherQ).chain _ _ (by rw [hlen]; omega)]
  rfl

/-!  Claim theorems. -/

/-- Claim C1: on a well formed matrix (sorted chain), for an in-bounds position and values
distinct from the current default, lookup after add returns the value just added; a position
never passed to add looks up to the current default and its first add grows size by exactly
one; an add at an already stored position leaves size unchanged; and a second add at the same
position overwrites the stored value without changing size. -/
theorem add_lookup_and_size_spec {T : Type} (m : SparseMatrix T) (r c : Int) (v w : T)
    (hs : SortedChain m.chain) (hr : 0 < r ∧ r ≤ m.righe) (hc : 0 < c ∧ c ≤ m.colonne)
    (hv : v ≠ m.D) (hw : w ≠ m.D) :
    (m.add r c v).lookup r c = v
    ∧ ((r, c) ∉ m.storedPositions → m.lookup r c = m.D ∧ (m.add r c v).size = m.size + 1)
    ∧ ((r, c) ∈ m.storedPositions → (m.add r c v).size = m.size)
    ∧ ((m.add r c v).add r c w).size = (m.add r c v).size
    ∧ ((m.add r c v).add r c w).lookup r c = w := by
  refine ⟨?_, ?_, ?_, ?_, ?_⟩
  · exact lookupChain_addChain_self m.D r c v m.chain
  · intro hnm
    refine ⟨lookupChain_not_mem m.D r c m.chain hnm, ?_⟩
    show (if (addChain r c v m.chain).2 then m.size + 1 else m.size) = m.size + 1
    rw [addChain_flag_true_of_not_mem r c v m.chain hnm]
    simp
  · intro hmem
    show (if (addChain r c v m.chain).2 then m.size + 1 else m.size) = m.size
    rw [addChain_flag_false_of_mem r c v m.chain hs hmem]
    simp
  · have hs2 : SortedChain (m.add r c v).chain := addChain_sorted r c v m.chain hs
    have hmem : (r, c) ∈ (m.add r c v).chain.map posOf := addChain_pos_mem r c v m.chain
    show (if (addChain r c w (m.add r c v).chain).2
        then (m.add r c v).size + 1 else (m.add r c v).size) = (m.add r c v).size
    rw [addChain_flag_false_of_mem r c w (m.add r c v).chain hs2 hmem]
    simp
  · exact lookupChain_addChain_self _ r c w _

/-- Witness for C1 at the scenario matrix of main.cpp: position (1, 2) is already stored,
so a further add overwrites the value and keeps size. -/
theorem add_lookup_and_size_witness :
    (scenarioM.add 1 2 42).lookup 1 2 = 42 ∧ (scenarioM.add 1 2 42).size = scenarioM.size := by
  have h := add_lookup_and_size_spec scenarioM 1 2 (42 : Int) 55 (by decide) (by decide)
    (by decide) (by decide) (by decide)
  exact ⟨h.1, h.2.2.1 (by decide)⟩

/-- Claim C2: after any sequence of add calls starting from a fresh matrix, iterating from
begin() to end() yields the stored cells in strictly ascending lexicographic (row, column)
order with no duplicate positions, and the number of iterated cells equals size(); and on the
3 by 2 example of main.cpp the iteration order is
(1,1), (1,2), (2,1), (2,2), (3,1), (3,2). -/
theorem iteration_sorted_spec {T : Type} (righe colonne : Int) (d : T)
    (ops : List (Int × Int × T)) :
    List.Pairwise pLt
      ((iterToList (applyAdds (mkSparseMatrix righe colonne d) ops).chain).map posOf)
    ∧ ((iterToList (applyAdds (mkSparseMatrix righe colonne d) ops).chain).map posOf).Nodup
    ∧ (iterToList (applyAdds (mkSparseMatrix righe colonne d) ops).chain).length
        = (applyAdds (mkSparseMatrix righe colonne d) ops).size
    ∧ (iterToList scenarioM.chain).map posOf
        = [(1, 1), (1, 2), (2, 1), (2, 2), (3, 1), (3, 2)] := by
  have hinv := applyAdds_inv ops (mkSparseMatrix righe colonne d)
    (by unfold SortedChain mkSparseMatrix; exact List.Pairwise.nil) rfl
  simp only [iterToList_eq]
  have hp : List.Pairwise pLt
      ((applyAdds (mkSparseMatrix righe colonne d) ops).chain.map posOf) := by
    rw [List.pairwise_map]
    exact hinv.1
  exact ⟨hp, hp.imp (fun hab => pLt_ne hab), hinv.2.symm, by decide⟩

/-- Claim C6 is refuted by the code: the conversion constructor executes the check statement
static_cast of (*Ib).dato at line 218 while Ib is still the default constructed null
iterator, an invalid access performed on every call, as for the 5 by 5 matrix converted at
main.cpp lines 75-76; the model of the constructor that includes that dereference never
reaches the construction loop. -/
theorem conv_check_null_deref :
    convCtorChecked (fun (q : Int) => q) (mkSparseMatrix 5 5 999999) = none
    ∧ ∀ (Q T : Type) (f : Q → T) (other : SparseMatrix Q), convCtorChecked f other = none :=
  ⟨rfl, fun _ _ _ _ => rfl⟩

/-- Claim C8: the constructor, add and lookup abort exactly when their asserted
preconditions fail, and a lookup of an unstored in-bounds cell is not an error: it returns
the current default value. -/
theorem assert_abort_iff_spec {T : Type} [DecidableEq T] (m : SparseMatrix T)
    (r c rr cc : Int) (d v : T) :
    (mkSparseMatrixChecked rr cc d = none ↔ ¬(0 < rr ∧ 0 < cc))
    ∧ (m.addChecked r c v = none ↔
        ¬((r ≤ m.righe ∧ 0 < r) ∧ (c ≤ m.colonne ∧ 0 < c) ∧ v ≠ m.D))
    ∧ (m.lookupChecked r c = none ↔ ¬((r ≤ m.righe ∧ 0 < r) ∧ (c ≤ m.colonne ∧ 0 < c)))
    ∧ ((r ≤ m.righe ∧ 0 < r) → (c ≤ m.colonne ∧ 0 < c) → (r, c) ∉ m.storedPositions →
        m.lookupChecked r c = some m.D) := by
  refine ⟨?_, ?_, ?_, ?_⟩
  · unfold mkSparseMatrixChecked
    split_ifs with h
    · simp [h]
    · simp [h]
  · unfold SparseMatrix.addChecked
    split_ifs with h
    · simp [h]
    · simp [h]
  · unfold SparseMatrix.lookupChecked
    split_ifs with h
    · simp [h]
    · simp [h]
  · intro hb1 hb2 hnm
    unfold SparseMatrix.lookupChecked
    rw [if_pos ⟨hb1, hb2⟩]
    show some (lookupChain m.D r c m.chain) = some m.D
    rw [lookupChain_not_mem m.D r c m.chain hnm]

/-- Witness for C8: a non-positive dimension aborts construction, and an in-bounds lookup of
an unstored cell on a fresh 3 by 2 matrix returns the default 999. -/
theorem assert_abort_iff_witness :
    mkSparseMatrixChecked 0 2 (0 : Int) = none
    ∧ (mkSparseMatrix 3 2 (999 : Int)).lookupChecked 2 1 = some 999 := by
  have h := assert_abort_iff_spec (mkSparseMatrix 3 2 (999 : Int)) 2 1 0 2 (0 : Int) (5 : Int)
  exact ⟨h.1.mpr (by decide), h.2.2.2 (by decide) (by decide) (by decide)⟩

/-- Claim C9: with the allocation budget model, an add whose node allocation fails signals
the error with the container untouched; a copy construction whose budget runs out signals
the error with every partially created node released (empty chain, size 0), and succeeds
with the full copy when the budget suffices; the cross-type conversion likewise either
signals the error with no live node of the new container or succeeds with the full
conversion. -/
theorem alloc_failure_rollback_spec {Q T : Type} (m : SparseMatrix T) (r c : Int) (v : T)
    (f : Q → T) (other : SparseMatrix T) (otherQ : SparseMatrix Q) (budget : Nat)
    (hs : SortedChain otherQ.chain) :
    addAlloc m r c v 0 = .error m
    ∧ (∀ mErr, copyCtorAlloc budget other = .error mErr → mErr.chain = [] ∧ mErr.size = 0)
    ∧ (budget < other.chain.length → ∃ mErr, copyCtorAlloc budget other = .error mErr)
    ∧ (other.chain.length ≤ budget →
        copyCtorAlloc budget other = .ok (copyCtor other, budget - other.chain.length))
    ∧ (∀ lErr, convCtorAlloc f budget otherQ = .error lErr → lErr = [])
    ∧ (2 * otherQ.chain.length ≤ budget →
        convCtorAlloc f budget otherQ = .ok (convCtor f otherQ)) := by
  refine ⟨rfl, ?_, ?_, ?_, ?_, ?_⟩
  · exact fun mErr h => copyCtorAlloc_error_clean budget other mErr h
  · exact fun h => copyCtorAlloc_error_exists budget other h
  · exact fun h => copyCtorAlloc_ok budget other h
  · exact fun lErr h => convCtorAlloc_error_clean f budget otherQ lErr h
  · exact fun h => convCtorAlloc_ok f budget otherQ hs h

/-- Witness for C9 at the scenario matrix of main.cpp: an exhausted budget fails an add
leaving the matrix unchanged, and a budget of twelve allocations completes the conversion of
the six stored cells. -/
theorem alloc_failure_rollback_witness :
    addAlloc scenarioM 1 1 (77 : Int) 0 = .error scenarioM
    ∧ convCtorAlloc (fun (q : Int) => q) 12 scenarioM
        = .ok (convCtor (fun (q : Int) => q) scenarioM) := by
  have h := alloc_failure_rollback_spec scenarioM 1 1 (77 : Int) (fun (q : Int) => q)
    scenarioM scenarioM 12 (by decide)
  exact ⟨h.1, h.2.2.2.2.2 (by decide)⟩

/-- Claim C10: an add at an in-bounds position with a non-default value leaves the row
count, the column count, the default value and the lookup result at every other in-bounds
position unchanged. -/
theorem add_frame_spec {T : Type} (m : SparseMatrix T) (r c r₂ c₂ : Int) (v : T)
    (hr : 0 < r ∧ r ≤ m.righe) (hc : 0 < c ∧ c ≤ m.colonne)
    (hr₂ : 0 < r₂ ∧ r₂ ≤ m.righe) (hc₂ : 0 < c₂ ∧ c₂ ≤ m.colonne)
    (hv : v ≠ m.D) (hne : (r₂, c₂) ≠ (r, c)) :
    (m.add r c v).righe = m.righe ∧ (m.add r c v).colonne = m.colonne
    ∧ (m.add r c v).D = m.D
    ∧ (m.add r c v).lookup r₂ c₂ = m.lookup r₂ c₂ :=
  ⟨rfl, rfl, rfl, lookupChain_addChain_frame m.D r c v r₂ c₂ m.chain hne⟩

/-- Witness for C10 at the scenario matrix of main.cpp. -/
theorem add_frame_witness :
    (scenarioM.add 1 1 (77 : Int)).lookup 2 2 = scenarioM.lookup 2 2 := by
  have h := add_frame_spec scenarioM 1 1 2 2 (77 : Int) (by decide) (by decide) (by decide)
    (by decide) (by decide) (by decide)
  exact h.2.2.2

theorem iwrap_eq_self {x : Int} (h0 : -2147483648 ≤ x) (h1 : x ≤ 2147483647) :
    iwrap x = x := by
  unfold iwrap
  omega

theorem iwrap_add_one (k : Int) : iwrap (iwrap k + 1) = iwrap (k + 1) := by
  unfold iwrap
  omega

theorem foldl_iwrap_succ {α : Type} :
    ∀ (l : List α) (k : Int),
      l.foldl (fun (c : Int) (_ : α) => iwrap (c + 1)) (iwrap k) = iwrap (k + l.length) := by
  intro l
  induction l with
  | nil => intro k; simp
  | cons a rest ih =>
    intro k
    rw [List.foldl_cons]
    rw [iwrap_add_one k, ih (k + 1)]
    congr 1
    push_cast [List.length_cons]
    ring

theorem evaluateC_true_eq {T : Type} (M : SparseMatrix T) :
    evaluateC M (fun _ => true) = iwrap ((M.righe.toNat : Int) * (M.colonne.toNat : Int)) := by
  show (List.range M.righe.toNat).foldl
      (fun (counter : Int) (i : Nat) =>
        (List.range M.colonne.toNat).foldl
          (fun (counter2 : Int) (_ : Nat) => iwrap (counter2 + 1)) counter)
      0
    = iwrap ((M.righe.toNat : Int) * (M.colonne.toNat : Int))
  have houter : ∀ (rows : List Nat) (k : Int),
      rows.foldl
        (fun (counter : Int) (i : Nat) =>
          (List.range M.colonne.toNat).foldl
            (fun (counter2 : Int) (_ : Nat) => iwrap (counter2 + 1)) counter)
        (iwrap k)
      = iwrap (k + rows.length * M.colonne.toNat) := by
    intro rows
    induction rows with
    | nil => intro k; simp
    | cons i2 rest ih =>
      intro k
      rw [List.foldl_cons]
      rw [foldl_iwrap_succ (List.range M.colonne.toNat) k, List.length_range,
        ih (k + M.colonne.toNat)]
      congr 1
      push_cast [List.length_cons]
      ring
  rw [show (0 : Int) = iwrap 0 from by decide, houter (List.range M.righe.toNat) 0,
    List.length_range]
  congr 1
  ring

theorem foldC_eq_fold {α : Type} (q : α → Bool) :
    ∀ (l : List α) (c : Int), 0 ≤ c → c + (l.countP q : Int) ≤ 2147483647 →
      l.foldl (fun (acc : Int) (a : α) => if q a then iwrap (acc + 1) else acc) c
        = l.foldl (fun (acc : Int) (a : α) => if q a then acc + 1 else acc) c := by
  intro l
  induction l with
  | nil => intro c h0 h1; rfl
  | cons a rest ih =>
    intro c h0 h1
    rw [List.countP_cons] at h1
    rw [List.foldl_cons, List.foldl_cons]
    cases hq : q a
    · rw [if_neg Bool.false_ne_true, if_neg Bool.false_ne_true]
      apply ih c h0
      simp [hq] at h1
      omega
    · rw [if_pos (rfl : true = true), if_pos (rfl : true = true)]
      simp [hq] at h1
      rw [iwrap_eq_self (by omega) (by omega)]
      apply ih (c + 1) (by omega)
      omega

theorem evaluateC_eq_evaluate {T : Type} (M : SparseMatrix T) (p : T → Bool)
    (hbound : (((densePositions M).countP (fun rc => p (M.lookup rc.1 rc.2)) : Nat) : Int)
      ≤ 2147483647) :
    evaluateC M p = evaluate M p := by
  unfold evaluateC evaluate
  unfold densePositions at hbound
  have haux : ∀ (rows : List Nat) (c : Int), 0 ≤ c →
      c + (((rows.flatMap
          (fun (i : Nat) => (List.range M.colonne.toNat).map
            (fun (j : Nat) => (((i : Int) + 1, (j : Int) + 1) : Int × Int)))).countP
          (fun rc => p (M.lookup rc.1 rc.2)) : Nat) : Int) ≤ 2147483647 →
      rows.foldl
        (fun (counter : Int) (i : Nat) =>
          (List.range M.colonne.toNat).foldl
            (fun (counter2 : Int) (j : Nat) =>
              if p (M.lookup ((i : Int) + 1) ((j : Int) + 1)) then iwrap (counter2 + 1)
              else counter2)
            counter)
        c =
      rows.foldl
        (fun (counter : Int) (i : Nat) =>
          (List.range M.colonne.toNat).foldl
            (fun (counter2 : Int) (j : Nat) =>
              if p (M.lookup ((i : Int) + 1) ((j : Int) + 1)) then counter2 + 1 else counter2)
            counter)
        c := by
    intro rows
    induction rows with
    | nil => intro c h0 hb; rfl
    | cons i rest ih =>
      intro c h0 hb
      have hcnt : ((List.range M.colonne.toNat).map
            (fun (j : Nat) => (((i : Int) + 1, (j : Int) + 1) : Int × Int))).countP
            (fun rc => p (M.lookup rc.1 rc.2))
          = (List.range M.colonne.toNat).countP
            (fun (j : Nat) => p (M.lookup ((i : Int) + 1) ((j : Int) + 1))) := by
        rw [List.countP_map]
        rfl
      rw [List.flatMap_cons, List.countP_append, hcnt] at hb
      rw [List.foldl_cons, List.foldl_cons]
      rw [foldC_eq_fold (fun (j : Nat) => p (M.lookup ((i : Int) + 1) ((j : Int) + 1)))
        (List.range M.colonne.toNat) c h0 (by push_cast at hb ⊢; omega)]
      rw [foldl_count_aux (fun (j : Nat) => p (M.lookup ((i : Int) + 1) ((j : Int) + 1)))
        (List.range M.colonne.toNat) c]
      apply ih
      · omega
      · push_cast at hb ⊢
        omega
  exact haux (List.range M.righe.toNat) 0 (le_refl 0) (by simpa using hbound)

theorem copyLoopChecked_ok {T : Type} [DecidableEq T] :
    ∀ (l : List (Elem T)) (m : SparseMatrix T),
      (∀ e ∈ l, (e.riga ≤ m.righe ∧ 0 < e.riga) ∧ (e.colonna ≤ m.colonne ∧ 0 < e.colonna)
        ∧ e.dato ≠ m.D) →
      copyLoopChecked l m = some (l.foldl (fun acc e => acc.add e.riga e.colonna e.dato) m) := by
  intro l
  induction l with
  | nil => intro m h; rfl
  | cons e rest ih =>
    intro m h
    have he := h e (by simp)
    have hadd : m.addChecked e.riga e.colonna e.dato = some (m.add e.riga e.colonna e.dato) := by
      unfold SparseMatrix.addChecked
      rw [if_pos ⟨he.1, he.2.1, he.2.2⟩]
    show (match m.addChecked e.riga e.colonna e.dato with
      | none => none
      | some m2 => copyLoopChecked rest m2)
      = some ((e :: rest).foldl (fun acc e => acc.add e.riga e.colonna e.dato) m)
    rw [hadd]
    exact ih (m.add e.riga e.colonna e.dato) (fun e2 he2 => h e2 (by simp [he2]))

/-- Counterexample to claim C3 as frozen: a reachable source holding a stored value equal to
its current default value, produced by add (1,1,5) followed by set_default(5), makes the
copy constructor abort on the assert at line 245 instead of producing a copy. -/
theorem copy_ctor_abort_counterexample :
    copyCtorChecked (((mkSparseMatrix 1 1 (0 : Int)).add 1 1 5).setDefault 5) = none := by
  decide

/-- Claim C3 as amended: for a well formed source whose stored cells lie within its bounds
and whose stored values all differ from its current default value, the copy constructor
completes without aborting and produces a container with identical size, dimensions,
default, and lookup result at every position; independence of the copy is inherent in the
embedding, where the source value is untouched by any later operation on the copy. -/
theorem copy_ctor_checked_spec {T : Type} [DecidableEq T] (m : SparseMatrix T)
    (hs : SortedChain m.chain) (hsync : m.size = m.chain.length)
    (hb : ∀ e ∈ m.chain,
      (e.riga ≤ m.righe ∧ 0 < e.riga) ∧ (e.colonna ≤ m.colonne ∧ 0 < e.colonna))
    (hv : ∀ e ∈ m.chain, e.dato ≠ m.D) :
    copyCtorChecked m = some (copyCtor m)
    ∧ (copyCtor m).size = m.size ∧ (copyCtor m).righe = m.righe
    ∧ (copyCtor m).colonne = m.colonne ∧ (copyCtor m).D = m.D
    ∧ ∀ r c : Int, (copyCtor m).lookup r c = m.lookup r c := by
  constructor
  · unfold copyCtorChecked
    rw [copyLoopChecked_ok m.chain
      { righe := m.righe, colonne := m.colonne, chain := [], size := 0, D := m.D }
      (fun e he => ⟨(hb e he).1, (hb e he).2, hv e he⟩)]
    rfl
  · rw [copyCtor_eq m hs]
    exact ⟨hsync.symm, rfl, rfl, rfl, fun r c => rfl⟩

/-- Witness for amended C3 at the scenario matrix of main.cpp, whose stored values all
differ from the default 999. -/
theorem copy_ctor_checked_witness :
    copyCtorChecked scenarioM = some (copyCtor scenarioM)
    ∧ (copyCtor scenarioM).size = scenarioM.size
    ∧ (copyCtor scenarioM).lookup 2 2 = scenarioM.lookup 2 2 := by
  have h := copy_ctor_checked_spec scenarioM (by decide) (by decide) (by decide) (by decide)
  exact ⟨h.1, h.2.1, h.2.2.2.2.2 2 2⟩

/-- Counterexample to claim C4 as frozen: on a 65536 by 65536 matrix with no stored cell,
the int counter of evaluate counts 4294967296 matches of the always-true predicate and
wraps to 0, so evaluate does not return rows times columns. -/
theorem evaluate_overflow_counterexample :
    evaluateC (mkSparseMatrix 65536 65536 (0 : Int)) (fun _ => true)
      ≠ (mkSparseMatrix 65536 65536 (0 : Int)).righe
        * (mkSparseMatrix 65536 65536 (0 : Int)).colonne := by
  rw [evaluateC_true_eq]
  decide

/-- Claim C4 as amended: as long as rows times columns does not exceed the largest int value
2147483647, evaluate with its int counter returns the number of positions of the dense
row-major scan whose looked-up value satisfies the predicate, and with an always-true
predicate it returns exactly rows times columns. -/
theorem evaluate_int_counter_spec {T : Type} (M : SparseMatrix T) (p : T → Bool)
    (h1 : 0 < M.righe) (h2 : 0 < M.colonne) (h3 : M.righe * M.colonne ≤ 2147483647) :
    evaluateC M p = ((densePositions M).countP (fun rc => p (M.lookup rc.1 rc.2)) : Nat)
    ∧ evaluateC M (fun _ => true) = M.righe * M.colonne := by
  have hlen : (((densePositions M).length : Nat) : Int) = M.righe * M.colonne := by
    rw [densePositions_length]
    push_cast [Int.toNat_of_nonneg h1.le, Int.toNat_of_nonneg h2.le]
    ring
  have hboundP : ∀ (pp : T → Bool),
      (((densePositions M).countP (fun rc => pp (M.lookup rc.1 rc.2)) : Nat) : Int)
        ≤ 2147483647 := by
    intro pp
    calc (((densePositions M).countP (fun rc => pp (M.lookup rc.1 rc.2)) : Nat) : Int)
        ≤ (((densePositions M).length : Nat) : Int) := by
          exact_mod_cast List.countP_le_length _
      _ = M.righe * M.colonne := hlen
      _ ≤ 2147483647 := h3
  constructor
  · rw [evaluateC_eq_evaluate M p (hboundP p)]
    exact evaluate_eq_countP M p
  · rw [evaluateC_eq_evaluate M (fun _ => true) (hboundP (fun _ => true))]
    rw [evaluate_eq_countP M (fun _ => true)]
    rw [show (fun rc : Int × Int => (fun _ : T => true) (M.lookup rc.1 rc.2))
        = (fun _ : Int × Int => true) from rfl]
    rw [List.countP_true]
    exact hlen

/-- Witness for amended C4 at the scenario matrix of main.cpp, whose 6 logical cells are far
below the int bound, with the divisible-by-3 predicate used there. -/
theorem evaluate_int_counter_witness :
    evaluateC scenarioM (fun x => x % 3 == 0) = 3
    ∧ evaluateC scenarioM (fun _ => true) = scenarioM.righe * scenarioM.colonne := by
  have h := evaluate_int_counter_spec scenarioM (fun x => x % 3 == 0) (by decide) (by decide)
    (by decide)
  exact ⟨h.1.trans (by decide), h.2⟩

/-- Claim C5 is refuted by the code (code bug): the full-fidelity model of the conversion
constructor never returns a matrix, because the check statement at line 218 dereferences the
default constructed null iterator on every call before the conversion loop can run; and even
setting that statement aside, the conversion loop aborts whenever the conversion collapses a
stored value onto the converted default, as integer division by ten does on a source with
stored value 17 and default 12. -/
theorem conv_ctor_never_completes :
    (∀ (Q T : Type) [DecidableEq Q] [DecidableEq T] (f : Q → T) (other : SparseMatrix Q),
        convCtorFull f other = none)
    ∧ convCtorFull (fun (q : Int) => q) (mkSparseMatrix 5 5 (999999 : Int)) = none
    ∧ convLoopChecked (fun (q : Int) => q / 10)
        ((mkSparseMatrix 1 1 (12 : Int)).add 1 1 17).chain
        { righe := 1, colonne := 1, chain := [], size := 0, D := (12 : Int) / 10 } = none := by
  refine ⟨?_, by decide, by decide⟩
  intro Q T dq dt f other
  unfold convCtorFull
  cases copyCtorChecked other with
  | none => rfl
  | some tmp => rfl

end SpMx
